import Mathlib

/-!
Verification of the code-annotations scripts of this repository.

The repository ships two variants of the same documentation-site enhancement:

* `src/unnamed/part_000` — the self-injecting variant.  Its core functions
  `extractExplanations`, `processCodeBlock`, `hideExplanationLists`,
  `escapeHtml` and `processContainer` are embedded below over `List Char`
  (a JS string is modelled as its list of characters; DOM text nodes,
  code blocks and lists are modelled as explicit record fields).
* `src/src/code-annotations.js` — the four-pattern variant with a
  `data-annotations-processed` flag; its `processCodeAnnotations` transform
  is embedded further below.

JS regular expressions are embedded as hand-rolled matchers that implement
the exact backtracking semantics of the concrete patterns appearing in the
source (all of them are simple enough that greedy/lazy behaviour can be
resolved once and for all; this is argued case by case in the comments).
Recursions that walk a string are written with an explicit fuel argument
initialised to `length + 1`; every step consumes at least one character, so
the fuel never runs out on the wrapper entry points.
-/

/-- Characters matched by the JS regex class `\s` (and removed by
`String.prototype.trim`): whitespace and line terminators. -/
def jsWhitespace (c : Char) : Bool :=
  ['\u0020', '\u0009', '\u000a', '\u000d', '\u000b', '\u000c', '\u00a0', '\ufeff',
   '\u1680', '\u2000', '\u2001', '\u2002', '\u2003', '\u2004', '\u2005',
   '\u2006', '\u2007', '\u2008', '\u2009', '\u200a',
   '\u2028', '\u2029', '\u202f', '\u205f', '\u3000'].contains c

/-- Characters the JS regex `.` does NOT match (line terminators). -/
def jsLineTerm (c : Char) : Bool :=
  c = '\n' ∨ c = '\r' ∨ c = '\u2028' ∨ c = '\u2029'

/-- `parseInt` on a non-empty all-digit capture: plain decimal value
(leading zeros are ignored, e.g. `parseInt("07") = 7`). -/
def digitsToNat (ds : List Char) : Nat :=
  ds.foldl (fun a c => 10 * a + (c.toNat - '0'.toNat)) 0

/-- JS `String.prototype.trim`: strip `\s` characters from both ends. -/
def jsTrim (s : List Char) : List Char :=
  ((s.dropWhile jsWhitespace).reverse.dropWhile jsWhitespace).reverse

/-- JS `codeText.slice(a, b)` for `a ≤ b` (and `slice(a)` via `b = length`). -/
def jsSlice (s : List Char) (a b : Nat) : List Char :=
  (s.drop a).take (b - a)

/-- `escapeHtml` (`src/unnamed/part_000` lines 211–215): the browser
serialises a text node escaping `&`, `<` and `>`.  Per-character form. -/
def escapeChar (c : Char) : List Char :=
  if c = '&' then ['&', 'a', 'm', 'p', ';']
  else if c = '<' then ['&', 'l', 't', ';']
  else if c = '>' then ['&', 'g', 't', ';']
  else [c]

/-- `escapeHtml` on a whole string. -/
def escapeHtml (s : List Char) : List Char :=
  (s.map escapeChar).flatten

/-- `textContent` of an element whose `innerHTML` was just assigned:
tag markup `<...>` contributes nothing, the entities produced by
`escapeHtml` decode back, every other character is literal text.  This
models the browser's parse of exactly the fragments the scripts build
(their attribute values never contain `>`).  Fuel-based; each step
consumes at least one character. -/
def htmlToTextGo : Nat → List Char → List Char
  | 0, _ => []
  | _ + 1, [] => []
  | fuel + 1, c :: rest =>
    if c = '<' then htmlToTextGo fuel (List.drop 1 (List.dropWhile (fun x => !(x = '>')) rest))
    else if c = '&' then
      if rest.take 4 = ['a', 'm', 'p', ';'] then '&' :: htmlToTextGo fuel (rest.drop 4)
      else if rest.take 3 = ['l', 't', ';'] then '<' :: htmlToTextGo fuel (rest.drop 3)
      else if rest.take 3 = ['g', 't', ';'] then '>' :: htmlToTextGo fuel (rest.drop 3)
      else c :: htmlToTextGo fuel rest
    else c :: htmlToTextGo fuel rest

/-- `textContent` after an `innerHTML` assignment (wrapper). -/
def htmlToText (s : List Char) : List Char :=
  htmlToTextGo (s.length + 1) s

/-! ## The marker pattern of `src/unnamed/part_000`

`ANNOTATION_PATTERNS.comment = /(?:\/\/|#|\/\*)\s*\((\d+)\)!\s*(?:\*\/)?/g`.

The shared middle part `\((\d+)\)!` preceded by `\s*` is `matchCore`:
the greedy `\s*` takes the maximal whitespace run (no whitespace character
is `(`, so backtracking can never produce a different match), then a
non-empty maximal digit run (shorter runs are followed by a digit, not by
`)`, so only the maximal run can match `(\d+)\)`), then `)!`. -/

/-- Match `\s*\((\d+)\)!` at the start of `s`; returns the number of
characters consumed and the digit capture. -/
def matchCore (s : List Char) : Option (Nat × List Char) :=
  match s.drop (s.takeWhile jsWhitespace).length with
  | '(' :: r3 =>
    if (r3.takeWhile Char.isDigit).isEmpty then none
    else
      match r3.drop (r3.takeWhile Char.isDigit).length with
      | ')' :: '!' :: _ =>
        some ((s.takeWhile jsWhitespace).length + 1 + (r3.takeWhile Char.isDigit).length + 2,
              r3.takeWhile Char.isDigit)
      | _ => none
  | _ => none

/-- The opener alternation `(?:\/\/|#|\/\*)`; at a given position at most
one branch can match, so the alternation order is irrelevant. -/
def openerLen3 : List Char → Option Nat
  | '/' :: '/' :: _ => some 2
  | '/' :: '*' :: _ => some 2
  | '#' :: _ => some 1
  | _ => none

/-- Trailing `(?:\*\/)?` after the greedy `\s*`: `*` is not whitespace, so
the greedy run and the optional group never interact. -/
def starLen (r : List Char) : Nat :=
  match r.drop (r.takeWhile jsWhitespace).length with
  | '*' :: '/' :: _ => 2
  | _ => 0

/-- Match the full `part_000` comment pattern at the start of `s`:
returns `(consumed length, parsed number)`. -/
def matchCommentAt (s : List Char) : Option (Nat × Nat) :=
  match openerLen3 s with
  | none => none
  | some p =>
    match matchCore (s.drop p) with
    | none => none
    | some (c, ds) =>
      some (p + c + ((s.drop (p + c)).takeWhile jsWhitespace).length + starLen (s.drop (p + c)),
            digitsToNat ds)

/-- One regex match as produced by `matchAll`: start offset, full matched
text (`match[0]`) and the parsed capture (`parseInt(match[1])`). -/
structure CMatch where
  index : Nat
  txt : List Char
  num : Nat
deriving DecidableEq

/-- `Array.from(codeText.matchAll(pattern))`: scan left to right; after a
match continue right after it, otherwise advance one character.  Fuel-based
(every real match consumes at least the opener, see
`matchCommentAt_bounds`). -/
def scanGo : Nat → List Char → List CMatch
  | 0, _ => []
  | _ + 1, [] => []
  | fuel + 1, c :: cs =>
    match matchCommentAt (c :: cs) with
    | some (k, n) =>
      ⟨0, (c :: cs).take k, n⟩ ::
        (scanGo fuel ((c :: cs).drop k)).map (fun m => ⟨m.index + k, m.txt, m.num⟩)
    | none => (scanGo fuel cs).map (fun m => ⟨m.index + 1, m.txt, m.num⟩)

/-- All pattern matches of the `part_000` comment pattern in `s`. -/
def scanMatches (s : List Char) : List CMatch :=
  scanGo (s.length + 1) s

/-! ## The explanation-line pattern

`ANNOTATION_PATTERNS.explanation = /^(\d+)\.\s+(.+)/` applied by
`line.match(...)` (anchored at the string start only).  `(\d+)\.` can only
bind the maximal digit run (a shorter run is followed by a digit).  `\s+`
is greedy; `(.+)` must then match at least one non-line-terminator
character, so the engine backtracks the whitespace run down from its
maximal length until the character at the capture start exists and is not
a line terminator. -/

/-- Backtracking search for the start of the `(.+)` capture: try the
positions `k, k-1, …, 1` (the whitespace run has length `k`) and return
the first whose character exists and is not a line terminator. -/
def pickStart (r : List Char) : Nat → Option Nat
  | 0 => none
  | i + 1 =>
    match r.get? (i + 1) with
    | some c => if jsLineTerm c then pickStart r i else some (i + 1)
    | none => pickStart r i

/-- Match `/^(\d+)\.\s+(.+)/` against a whole line; returns the parsed
number (`parseInt(match[1])`) and the raw `match[2]` capture. -/
def matchExplanation (line : List Char) : Option (Nat × List Char) :=
  if (line.takeWhile Char.isDigit).isEmpty then none
  else
    match line.drop (line.takeWhile Char.isDigit).length with
    | '.' :: r =>
      match pickStart r (r.takeWhile jsWhitespace).length with
      | some i =>
        some (digitsToNat (line.takeWhile Char.isDigit),
              (r.drop i).takeWhile (fun c => !(jsLineTerm c)))
      | none => none
    | _ => none

/-- The explanation table: a JS `Map` from annotation number to
explanation text.  `set` is modelled by consing, `get` by `find?` on the
most recent entry first, so later `set`s shadow earlier ones exactly as in
the source. -/
abbrev ExplTable := List (Nat × List Char)

/-- `explanations.get(number)`. -/
def explGet (t : ExplTable) (n : Nat) : Option (List Char) :=
  (t.find? (fun p => p.1 == n)).map Prod.snd

/-- `extractExplanations` (`src/unnamed/part_000` lines 120–145): walk the
container's text nodes in document order; for each, trim, split on `\n`,
and for each line matching the explanation pattern `set` the parsed number
to the trimmed capture. -/
def extractExplanations (textNodes : List (List Char)) : ExplTable :=
  textNodes.foldl (fun table node =>
    ((jsTrim node).splitOn '\n').foldl (fun table line =>
      match matchExplanation line with
      | some (n, cap) => (n, jsTrim cap) :: table
      | none => table) table) []

/-! ## The rewriter of `src/unnamed/part_000` (`processCodeBlock`, lines 148–183) -/

/-- Opening of the tooltip node in the annotation template. -/
def tooltipOpen : List Char := "<div class=\"code-annotation-tooltip\">".toList

/-- Closing of the tooltip node in the annotation template. -/
def tooltipClose : List Char := "</div>".toList

/-- Template text before the tooltip node: the `span` opener showing the
number (lines 167–169 of the source, template-literal whitespace kept
byte for byte). -/
def annotOpen (n : Nat) : List Char :=
  "<span class=\"code-annotation\" data-annotation=\"".toList ++ (Nat.repr n).toList
    ++ "\">\n                ".toList ++ (Nat.repr n).toList ++ "\n                ".toList

/-- Template text after the tooltip node (line 170 of the source). -/
def annotClose : List Char := "\n            </span>".toList

/-- The `annotationHtml` template of `processCodeBlock`: a `span` carrying
`data-annotation`, the visible number, and a tooltip `div` holding the
HTML-escaped explanation. -/
def annotHtml (n : Nat) (e : List Char) : List Char :=
  annotOpen n ++ tooltipOpen ++ escapeHtml e ++ tooltipClose ++ annotClose

/-- The `for (const match of matches)` loop of `processCodeBlock` plus the
final `annotatedHtml += escapeHtml(codeText.slice(lastIndex))`: markers
whose number has no (or an empty, hence falsy) explanation are skipped
without advancing `lastIndex`; every other match emits the escaped gap
since `lastIndex`, then the annotation element. -/
def renderMatches (codeText : List Char) (expl : ExplTable) :
    List CMatch → Nat → List Char
  | [], lastIndex => escapeHtml (jsSlice codeText lastIndex codeText.length)
  | m :: ms, lastIndex =>
    match explGet expl m.num with
    | none => renderMatches codeText expl ms lastIndex
    | some e =>
      if e.isEmpty then renderMatches codeText expl ms lastIndex
      else
        escapeHtml (jsSlice codeText lastIndex m.index) ++ annotHtml m.num e
          ++ renderMatches codeText expl ms (m.index + m.txt.length)

/-- The `annotatedHtml` string `processCodeBlock` builds from a code
block's text content. -/
def processCodeBlockHtml (codeText : List Char) (expl : ExplTable) : List Char :=
  renderMatches codeText expl (scanMatches codeText) 0

/-! ## The container scan of `src/unnamed/part_000` (`processContainer`, lines 218–254) -/

/-- A code block element: its current text content, whether it sits inside
a `table` element (`closest('table')`), and its current inner HTML. -/
structure Block where
  text : List Char
  inTable : Bool
  html : List Char
deriving DecidableEq

/-- An `OL`/`UL` element: its `li` text contents and whether the hiding
class `code-annotations-explanations` has been added. -/
structure ExplList where
  items : List (List Char)
  hidden : Bool
deriving DecidableEq

/-- A container subtree: its text nodes in document order (the input of
`extractExplanations`), its code block elements, and its list elements. -/
structure Container where
  textNodes : List (List Char)
  blocks : List Block
  lists : List ExplList
deriving DecidableEq

/-- `processCodeBlock` as a state transform on one code block: when the
match list is non-empty the block's `innerHTML` is assigned the annotated
HTML, which also replaces its text content by the parse of that HTML. -/
def processCodeBlock (b : Block) (expl : ExplTable) : Block :=
  if (scanMatches b.text).isEmpty then b
  else
    { b with
      html := processCodeBlockHtml b.text expl,
      text := htmlToText (processCodeBlockHtml b.text expl) }

/-- The used-number tracking of `processContainer` (lines 240–247): after
(re)processing a block, every match of the comment pattern in the block's
*current* text content whose number the table `has` is added to the
`usedNumbers` set. -/
def addUsed (expl : ExplTable) (used : List Nat) (ms : List CMatch) : List Nat :=
  ms.foldl (fun u m =>
    if (explGet expl m.num).isSome then (if u.contains m.num then u else u ++ [m.num])
    else u) used

/-- The per-block loop of `processContainer` (lines 233–248): blocks whose
text is shorter than 10 characters or that sit inside a table are skipped;
the others are processed and their current text re-scanned for used
numbers.  Returns the updated blocks and the final `usedNumbers`. -/
def processBlocks (expl : ExplTable) : List Block → List Nat → List Block × List Nat
  | [], used => ([], used)
  | b :: bs, used =>
    if b.text.length < 10 ∨ b.inTable = true then
      ((b :: (processBlocks expl bs used).1), (processBlocks expl bs used).2)
    else
      ((processCodeBlock b expl ::
          (processBlocks expl bs
            (addUsed expl used (scanMatches (processCodeBlock b expl).text))).1),
       (processBlocks expl bs
          (addUsed expl used (scanMatches (processCodeBlock b expl).text))).2)

/-- `hideExplanationLists` (lines 186–208): an `OL`/`UL` gets the hiding
class iff some `li`'s trimmed text matches the explanation pattern with a
number in `usedNumbers`. -/
def hideExplanationLists (ls : List ExplList) (used : List Nat) : List ExplList :=
  ls.map (fun l =>
    if l.items.any (fun it =>
        match matchExplanation (jsTrim it) with
        | some p => used.contains p.1
        | none => false)
    then { l with hidden := true } else l)

/-- `processContainer` (lines 218–254): build the table; if it is empty do
nothing; otherwise process the blocks, and if any number was used, hide
the matching explanation lists. -/
def processContainer (c : Container) : Container :=
  if (extractExplanations c.textNodes).isEmpty then c
  else
    { c with
      blocks := (processBlocks (extractExplanations c.textNodes) c.blocks []).1,
      lists :=
        if ((processBlocks (extractExplanations c.textNodes) c.blocks []).2).isEmpty then c.lists
        else hideExplanationLists c.lists
              (processBlocks (extractExplanations c.textNodes) c.blocks []).2 }

/-- The match list `ms` tiles `s` starting at offset `pos`: the matches
are in order, within bounds, non-overlapping, and each records exactly the
slice of `s` it claims. -/
def Covers (s : List Char) : Nat → List CMatch → Prop
  | _, [] => True
  | pos, m :: ms =>
    pos ≤ m.index ∧ m.index + m.txt.length ≤ s.length ∧
      jsSlice s m.index (m.index + m.txt.length) = m.txt ∧
      Covers s (m.index + m.txt.length) ms

/-! ## Decomposition of the rendered output -/

/-- The condition under which `processCodeBlock` rewrites a match: the
table has an entry for the number and it is not the empty (falsy) string. -/
def consumedP (expl : ExplTable) (m : CMatch) : Bool :=
  match explGet expl m.num with
  | some e => !e.isEmpty
  | none => false

/-- The matches actually rewritten by `processCodeBlock`. -/
def consumedMatches (expl : ExplTable) (ms : List CMatch) : List CMatch :=
  ms.filter (consumedP expl)

/-- The gaps of the input around a match list: the slice before each
match, and the slice after the last match. -/
def gapsFrom (s : List Char) : Nat → List CMatch → List (List Char)
  | pos, [] => [jsSlice s pos s.length]
  | pos, m :: ms => jsSlice s pos m.index :: gapsFrom s (m.index + m.txt.length) ms

/-- Interleave gaps and rewritten elements: `g₀ ++ a₁ ++ g₁ ++ …`. -/
def weave : List (List Char) → List (List Char) → List Char
  | [], ys => ys.flatten
  | g :: gs, [] => g ++ weave gs []
  | g :: gs, a :: as => g ++ a ++ weave gs as

/-- The annotation element emitted for a consumed match. -/
def annotOf (expl : ExplTable) (m : CMatch) : List Char :=
  annotHtml m.num ((explGet expl m.num).getD [])

/-! ## Document-order view of the explanation table -/

/-- All `(number, trimmed explanation)` pairs produced by the collector,
in document order. -/
def explPairs (textNodes : List (List Char)) : List (Nat × List Char) :=
  (textNodes.map (fun node =>
    ((jsTrim node).splitOn '\n').filterMap (fun line =>
      (matchExplanation line).map (fun p => (p.1, jsTrim p.2))))).flatten

/-! ## The four-pattern variant (`src/src/code-annotations.js`)

`ANNOTATION_PATTERNS` (lines 14–23) are applied one after the other by
`String.prototype.replace` with a global regex, each on the output of the
previous one.  Each matcher below resolves the backtracking of its pattern
once and for all:

* line/SQL patterns end in the greedy `\s*([^\n\r]*)`, which always
  succeeds, consuming the maximal whitespace run (including newlines) and
  then the rest of the current line;
* the HTML/CSS patterns end in `\s*([^-]*?)-->` resp. `\s*([^*]*?)\*\/`:
  the lazy class cannot cross a `-` (resp. `*`), and the closer starts
  with that very character, so the match succeeds iff the first such
  character after the greedy whitespace run opens the closer, the capture
  being everything before it (backtracking the `\s*` run cannot move the
  first such character, so it can never turn failure into success). -/

/-- `/(?:\/\/|#)\s*\((\d+)\)!\s*([^\n\r]*)/` at the start of `s`:
returns `(consumed, digits, capture)`. -/
def jsLineAt (s : List Char) : Option (Nat × List Char × List Char) :=
  let opener : Option Nat :=
    match s with
    | '/' :: '/' :: _ => some 2
    | '#' :: _ => some 1
    | _ => none
  match opener with
  | none => none
  | some p =>
    match matchCore (s.drop p) with
    | none => none
    | some (c, ds) =>
      let r := s.drop (p + c)
      let w := (r.takeWhile jsWhitespace).length
      let cap := (r.drop w).takeWhile (fun ch => !(ch == '\n' || ch == '\r'))
      some (p + c + w + cap.length, ds, cap)

/-- `--\s*\((\d+)\)!\s*([^\n\r]*)` (the SQL-comment pattern) at the
start of `s`. -/
def jsSqlAt (s : List Char) : Option (Nat × List Char × List Char) :=
  match s with
  | '-' :: '-' :: rest =>
    match matchCore rest with
    | none => none
    | some (c, ds) =>
      let r := rest.drop c
      let w := (r.takeWhile jsWhitespace).length
      let cap := (r.drop w).takeWhile (fun ch => !(ch == '\n' || ch == '\r'))
      some (2 + c + w + cap.length, ds, cap)
  | _ => none

/-- `/<!--\s*\((\d+)\)!\s*([^-]*?)-->/` at the start of `s`. -/
def jsHtmlAt (s : List Char) : Option (Nat × List Char × List Char) :=
  match s with
  | '<' :: '!' :: '-' :: '-' :: rest =>
    match matchCore rest with
    | none => none
    | some (c, ds) =>
      let r := rest.drop c
      let w := (r.takeWhile jsWhitespace).length
      let pre := (r.drop w).takeWhile (fun ch => !(ch == '-'))
      match (r.drop w).drop pre.length with
      | '-' :: '-' :: '>' :: _ => some (4 + c + w + pre.length + 3, ds, pre)
      | _ => none
  | _ => none

/-- `/\/\*\s*\((\d+)\)!\s*([^*]*?)\*\//` at the start of `s`. -/
def jsBlockAt (s : List Char) : Option (Nat × List Char × List Char) :=
  match s with
  | '/' :: '*' :: rest =>
    match matchCore rest with
    | none => none
    | some (c, ds) =>
      let r := rest.drop c
      let w := (r.takeWhile jsWhitespace).length
      let pre := (r.drop w).takeWhile (fun ch => !(ch == '*'))
      match (r.drop w).drop pre.length with
      | '*' :: '/' :: _ => some (2 + c + w + pre.length + 2, ds, pre)
      | _ => none
  | _ => none

/-- The explanation cleanup (lines 49–50 of the source): a falsy (empty)
capture yields the placeholder, otherwise the capture is trimmed. -/
def jsExplanationOf (ds cap : List Char) : List Char :=
  if cap.isEmpty then "Annotation ".toList ++ ds else jsTrim cap

/-- The replacement template (lines 57–60), whitespace byte for byte.
Note this variant keys `data-annotation` by the raw digit string. -/
def jsAnnotSpan (ds expl : List Char) : List Char :=
  "<span class=\"code-annotation\" data-annotation=\"".toList ++ ds
    ++ "\">\n                        <span class=\"code-annotation-marker\">".toList ++ ds
    ++ "</span>\n                        <div class=\"code-annotation-tooltip\">".toList ++ expl
    ++ "</div>\n                    </span>".toList

/-- `content.replace(pattern, replacer)` with a global regex: find the
leftmost match, emit the replacement, continue after the match; also
report whether any replacement happened (the `hasAnnotations` flag is set
inside the replacer).  Fuel-based; all four matchers consume at least one
character per match. -/
def replaceGo (mt : List Char → Option (Nat × List Char × List Char)) :
    Nat → List Char → List Char × Bool
  | 0, s => (s, false)
  | _ + 1, [] => ([], false)
  | fuel + 1, ch :: cs =>
    match mt (ch :: cs) with
    | some (k, ds, cap) =>
      (jsAnnotSpan ds (jsExplanationOf ds cap)
        ++ (replaceGo mt fuel ((ch :: cs).drop k)).1, true)
    | none =>
      (ch :: (replaceGo mt fuel cs).1, (replaceGo mt fuel cs).2)

/-- `replace` wrapper with sufficient fuel. -/
def replaceAllJs (mt : List Char → Option (Nat × List Char × List Char))
    (s : List Char) : List Char × Bool :=
  replaceGo mt (s.length + 1) s

/-- The `ANNOTATION_PATTERNS.forEach` loop of `processCodeAnnotations`
(lines 43–62): the four patterns applied in order, each to the previous
output, with the combined `hasAnnotations` flag. -/
def processJsContent (content : List Char) : List Char × Bool :=
  ((replaceAllJs jsSqlAt ((replaceAllJs jsBlockAt ((replaceAllJs jsHtmlAt
      ((replaceAllJs jsLineAt content).1)).1)).1)).1,
   (replaceAllJs jsLineAt content).2
     || (replaceAllJs jsHtmlAt ((replaceAllJs jsLineAt content).1)).2
     || (replaceAllJs jsBlockAt ((replaceAllJs jsHtmlAt
          ((replaceAllJs jsLineAt content).1)).1)).2
     || (replaceAllJs jsSqlAt ((replaceAllJs jsBlockAt ((replaceAllJs jsHtmlAt
          ((replaceAllJs jsLineAt content).1)).1)).1)).2)

/-- A code block as seen by `processCodeAnnotations`: its `innerHTML` and
its `data-annotations-processed` flag. -/
structure JsCodeBlock where
  content : List Char
  processed : Bool
deriving DecidableEq

/-- The per-block body of `processCodeAnnotations` (lines 32–72): skip if
flagged; otherwise run the patterns, and only if some pattern matched,
store the new content and set the flag. -/
def processJsBlock (b : JsCodeBlock) : JsCodeBlock :=
  if b.processed then b
  else if (processJsContent b.content).2 then ⟨(processJsContent b.content).1, true⟩ else b

/-- `processCodeAnnotations`: every code block of the page is processed
independently. -/
def processCodeAnnotations (bs : List JsCodeBlock) : List JsCodeBlock :=
  bs.map processJsBlock

/-! ## Concrete scenarios and auxiliary search functions -/

/-- `pat` is a prefix of the second list. -/
def leadsWith : List Char → List Char → Bool
  | [], _ => true
  | _ :: _, [] => false
  | p :: ps, c :: cs => (p == c) && leadsWith ps cs

/-- `pat` occurs contiguously somewhere in the second list. -/
def listHasSeq (pat : List Char) : List Char → Bool
  | [] => pat.isEmpty
  | c :: cs => leadsWith pat (c :: cs) || listHasSeq pat cs

/-- A code block containing markers in all four comment syntaxes, each
with an inline explanation. -/
def c6Input : List Char :=
  ("x = 1  # (1)! alpha\n<!-- (2)! beta -->\n/* (3)! gamma */\nSELECT 1 -- (4)! delta").toList

/-- The end-to-end scenario code block of the spec (§8). -/
def e2eCode : List Char := "def f():  # (1)!\n    return 1  # (2)!".toList

/-- The end-to-end scenario container: the code block, followed by the
explanation list `1. Defines f.` / `2. Returns one.` (whose item texts
are also text nodes of the container). -/
def e2eContainer : Container :=
  { textNodes := [e2eCode, "1. Defines f.".toList, "2. Returns one.".toList],
    blocks := [⟨e2eCode, false, []⟩],
    lists := [⟨["1. Defines f.".toList, "2. Returns one.".toList], false⟩] }

/-- A table whose explanation for 1 itself contains a marker. -/
def loopExpl : ExplTable := [(1, "# (1)! y".toList)]

/-- A block with a marker for number 1. -/
def loopBlock : Block := ⟨"z = 0  # (1)!".toList, false, []⟩

/-- A benign table. -/
def benignExpl : ExplTable := [(1, "ok".toList)]

/-- A benign block: after one rewrite no marker text remains. -/
def benignBlock : Block := ⟨"x = 1  # (1)! done".toList, false, []⟩

/-- A container whose text nodes contain no explanation line but whose
code block carries a marker. -/
def plainContainer : Container :=
  { textNodes := ["just prose with no numbered lines".toList],
    blocks := [⟨"x = 1  # (1)! y".toList, false, []⟩],
    lists := [⟨["not numbered".toList], false⟩] }

/-- A container whose only code block is shorter than 10 characters but
carries a marker whose number has a table entry. -/
def shortBlockContainer : Container :=
  { textNodes := ["1. One".toList],
    blocks := [⟨"# (1)!".toList, false, []⟩, ⟨"y = f(11)  # (1)! call".toList, true, []⟩],
    lists := [] }

/-! ## The claims -/

set_option maxRecDepth 10000

example : scanMatches ("x = 1  # (1)! y".toList) =
    [⟨7, "# (1)! ".toList, 1⟩] := by decide

example : scanMatches ("def f():  # (1)!\n    return 1  # (2)!".toList) =
    [⟨10, "# (1)!\n    ".toList, 1⟩, ⟨31, "# (2)!".toList, 2⟩] := by decide

example : explGet (extractExplanations ["1. Defines f.\n2. Returns one.".toList]) 2
    = some ("Returns one.".toList) := by decide

example : extractExplanations ["07. seven".toList] = [(7, "seven".toList)] := by decide

/-! ## Soundness of the scanner: every reported match tiles the input -/

/-- Every successful `matchCore` consumes between 1 and `s.length` characters. -/
theorem matchCore_bounds {s : List Char} {c : Nat} {ds : List Char}
    (h : matchCore s = some (c, ds)) : 1 ≤ c ∧ c ≤ s.length := by
  unfold matchCore at h
  split at h
  case _ r3 heq =>
    have h3 : s.length - (s.takeWhile jsWhitespace).length = r3.length + 1 := by
      have := congrArg List.length heq
      simpa using this
    split at h
    · simp at h
    · split at h
      case _ r5 heq2 =>
        have h5 : r3.length - (r3.takeWhile Char.isDigit).length = r5.length + 2 := by
          have := congrArg List.length heq2
          simpa using this
        simp only [Option.some.injEq, Prod.mk.injEq] at h
        omega
      case _ => simp at h
  case _ => simp at h

/-- A successful opener consumes between 1 and `s.length` characters. -/
theorem openerLen3_bounds {s : List Char} {p : Nat} (h : openerLen3 s = some p) :
    1 ≤ p ∧ p ≤ s.length := by
  unfold openerLen3 at h
  split at h <;> simp_all <;> omega

/-- The optional trailing `*/` together with the whitespace before it fits
inside `r`. -/
theorem starLen_add_le (r : List Char) :
    (r.takeWhile jsWhitespace).length + starLen r ≤ r.length := by
  unfold starLen
  split
  case _ t heq =>
    have := congrArg List.length heq
    simp at this
    omega
  case _ =>
    have := (List.takeWhile_sublist (l := r) jsWhitespace).length_le
    omega

/-- Every successful full-pattern match consumes between 1 and `s.length`
characters. -/
theorem matchCommentAt_bounds {s : List Char} {k n : Nat}
    (h : matchCommentAt s = some (k, n)) : 1 ≤ k ∧ k ≤ s.length := by
  unfold matchCommentAt at h
  split at h
  · simp at h
  case _ p hp =>
    split at h
    · simp at h
    case _ c ds hc =>
      obtain ⟨hp1, hp2⟩ := openerLen3_bounds hp
      obtain ⟨hc1, hc2⟩ := matchCore_bounds hc
      have hst := starLen_add_le (s.drop (p + c))
      simp only [Option.some.injEq, Prod.mk.injEq] at h
      simp only [List.length_drop] at hc2 hst
      omega

/-- A cover may start earlier. -/
theorem Covers.mono {s : List Char} {pos q : Nat} {ms : List CMatch}
    (h : Covers s pos ms) (hq : q ≤ pos) : Covers s q ms := by
  cases ms with
  | nil => trivial
  | cons m ms =>
    obtain ⟨h1, h2, h3, h4⟩ := h
    exact ⟨le_trans hq h1, h2, h3, h4⟩

/-- A cover of a suffix shifts to a cover of the whole string. -/
theorem Covers.shift {s t : List Char} {pos : Nat} {ms : List CMatch}
    (h : Covers s pos ms) :
    Covers (t ++ s) (pos + t.length)
      (ms.map (fun m => ⟨m.index + t.length, m.txt, m.num⟩)) := by
  induction ms generalizing pos with
  | nil => trivial
  | cons m ms ih =>
    obtain ⟨h1, h2, h3, h4⟩ := h
    simp only [List.map_cons, Covers]
    refine ⟨by omega, by simp only [List.length_append]; omega, ?_, ?_⟩
    · unfold jsSlice at h3 ⊢
      rw [show m.index + t.length = t.length + m.index by omega, List.drop_append]
      rw [show t.length + m.index + m.txt.length - (t.length + m.index)
            = m.index + m.txt.length - m.index by omega]
      exact h3
    · have := ih h4
      rw [show m.index + t.length + m.txt.length
            = m.index + m.txt.length + t.length by omega]
      exact this

/-- Filtering preserves a cover. -/
theorem Covers.filter {s : List Char} {pos : Nat} {ms : List CMatch} (p : CMatch → Bool)
    (h : Covers s pos ms) : Covers s pos (ms.filter p) := by
  induction ms generalizing pos with
  | nil => trivial
  | cons m ms ih =>
    obtain ⟨h1, h2, h3, h4⟩ := h
    rw [List.filter_cons]
    by_cases hp : p m = true
    · rw [if_pos hp]
      exact ⟨h1, h2, h3, ih h4⟩
    · rw [if_neg hp]
      exact (ih h4).mono (by omega)

/-- The scanner only returns covers (fuel version). -/
theorem covers_scanGo (fuel : Nat) : ∀ (s : List Char), s.length < fuel →
    Covers s 0 (scanGo fuel s) := by
  induction fuel with
  | zero => intro s h; omega
  | succ fuel ih =>
    intro s h
    match s with
    | [] => trivial
    | c :: cs =>
      simp only [scanGo]
      split
      case _ k n heq =>
        obtain ⟨hk1, hk2⟩ := matchCommentAt_bounds heq
        have hlen : (List.take k (c :: cs)).length = k := by
          simp only [List.length_take]
          omega
        have hlt : (List.drop k (c :: cs)).length < fuel := by
          simp only [List.length_drop]
          simp only [List.length_cons] at h ⊢
          omega
        refine ⟨Nat.le_refl 0, ?_, ?_, ?_⟩
        · rw [Nat.zero_add, hlen]; exact hk2
        · rw [Nat.zero_add, hlen]
          simp only [jsSlice, List.drop_zero, Nat.sub_zero]
        · rw [Nat.zero_add, hlen]
          have hcv := (ih _ hlt).shift (t := List.take k (c :: cs))
          rw [List.take_append_drop, hlen, Nat.zero_add] at hcv
          exact hcv
      case _ heq =>
        have hlt : cs.length < fuel := by
          simp only [List.length_cons] at h
          omega
        have hcv := (ih _ hlt).shift (t := [c])
        simp only [List.singleton_append, List.length_cons, List.length_nil,
          Nat.zero_add] at hcv
        exact hcv.mono (Nat.zero_le 1)

/-- The matches reported by `matchAll` tile the input. -/
theorem covers_scan (s : List Char) : Covers s 0 (scanMatches s) :=
  covers_scanGo (s.length + 1) s (Nat.lt_succ_self _)

/-- Skipped matches emit nothing and do not advance `lastIndex`, so the
render only depends on the consumed sublist. -/
theorem renderMatches_filter (codeText : List Char) (expl : ExplTable) :
    ∀ (ms : List CMatch) (i : Nat),
      renderMatches codeText expl ms i
        = renderMatches codeText expl (consumedMatches expl ms) i := by
  intro ms
  induction ms with
  | nil => intro i; rfl
  | cons m ms ih =>
    intro i
    rw [consumedMatches, List.filter_cons]
    cases heq : explGet expl m.num with
    | none =>
      have hp : consumedP expl m = false := by simp [consumedP, heq]
      rw [hp]
      simp only [Bool.false_eq_true, if_false]
      simp only [renderMatches, heq]
      exact ih i
    | some e =>
      by_cases he : e.isEmpty
      · have hp : consumedP expl m = false := by simp [consumedP, heq, he]
        rw [hp]
        simp only [Bool.false_eq_true, if_false]
        simp only [renderMatches, heq, he, if_true]
        exact ih i
      · have hp : consumedP expl m = true := by simp [consumedP, heq, he]
        rw [hp]
        simp only [if_true]
        simp only [renderMatches, heq, he, if_false]
        simp only [ih, consumedMatches]

/-- On a list of consumed matches covering the text, the render is the
weave of the escaped gaps with the annotation elements. -/
theorem renderMatches_weave (s : List Char) (expl : ExplTable) :
    ∀ (ms : List CMatch) (pos : Nat), Covers s pos ms →
      (∀ m ∈ ms, consumedP expl m = true) →
      renderMatches s expl ms pos
        = weave ((gapsFrom s pos ms).map escapeHtml) (ms.map (annotOf expl)) := by
  intro ms
  induction ms with
  | nil =>
    intro pos _ _
    simp [renderMatches, gapsFrom, weave]
  | cons m ms ih =>
    intro pos hc hall
    obtain ⟨h1, h2, h3, h4⟩ := hc
    have hm := hall m (List.mem_cons_self m ms)
    cases heq : explGet expl m.num with
    | none => simp [consumedP, heq] at hm
    | some e =>
      have he : e.isEmpty = false := by
        cases hh : e.isEmpty
        · rfl
        · simp [consumedP, heq, hh] at hm
      simp only [renderMatches, heq, he, Bool.false_eq_true, if_false]
      simp only [gapsFrom, List.map_cons, weave]
      rw [ih _ h4 (fun x hx => hall x (List.mem_cons_of_mem m hx))]
      have : annotOf expl m = annotHtml m.num e := by
        simp [annotOf, heq]
      rw [this]

/-- Two adjacent slices concatenate. -/
theorem jsSlice_append (s : List Char) {a b c : Nat} (hab : a ≤ b) (hbc : b ≤ c) :
    jsSlice s a b ++ jsSlice s b c = jsSlice s a c := by
  unfold jsSlice
  rw [show c - a = (b - a) + (c - b) by omega, List.take_add]
  congr 2
  rw [List.drop_drop]
  congr 1
  omega

/-- Weaving the gaps with the matched texts reassembles the input slice:
no character outside the matched spans is lost or reordered. -/
theorem weave_gaps (s : List Char) :
    ∀ (ms : List CMatch) (pos : Nat), Covers s pos ms →
      weave (gapsFrom s pos ms) (ms.map CMatch.txt) = jsSlice s pos s.length := by
  intro ms
  induction ms with
  | nil => intro pos _; simp [gapsFrom, weave]
  | cons m ms ih =>
    intro pos hc
    obtain ⟨h1, h2, h3, h4⟩ := hc
    simp only [gapsFrom, List.map_cons, weave]
    rw [ih _ h4]
    calc jsSlice s pos m.index ++ m.txt ++ jsSlice s (m.index + m.txt.length) s.length
        = jsSlice s pos m.index ++ (jsSlice s m.index (m.index + m.txt.length)
            ++ jsSlice s (m.index + m.txt.length) s.length) := by
          rw [List.append_assoc]
          exact congrArg
            (fun x => jsSlice s pos m.index
              ++ (x ++ jsSlice s (m.index + m.txt.length) s.length)) h3.symm
      _ = jsSlice s pos m.index ++ jsSlice s m.index s.length := by
            rw [jsSlice_append s (Nat.le_add_right _ _) h2]
      _ = jsSlice s pos s.length := jsSlice_append s h1 (by omega)

/-- `processCodeBlockHtml` is exactly the weave of the escaped gaps with
the annotation elements of the consumed matches. -/
theorem processHtml_eq_weave (t : List Char) (expl : ExplTable) :
    processCodeBlockHtml t expl
      = weave ((gapsFrom t 0 (consumedMatches expl (scanMatches t))).map escapeHtml)
              ((consumedMatches expl (scanMatches t)).map (annotOf expl)) := by
  rw [processCodeBlockHtml, renderMatches_filter]
  exact renderMatches_weave t expl _ 0 ((covers_scan t).filter _)
    (fun m hm => (List.mem_filter.mp hm).2)

/-- The gaps interleaved with the consumed matched spans reassemble the
input text exactly. -/
theorem weave_reassemble (t : List Char) (expl : ExplTable) :
    weave (gapsFrom t 0 (consumedMatches expl (scanMatches t)))
          ((consumedMatches expl (scanMatches t)).map CMatch.txt) = t := by
  have h := weave_gaps t (consumedMatches expl (scanMatches t)) 0
    ((covers_scan t).filter (consumedP expl))
  rw [h]
  simp [jsSlice]

/-! ## Escaping facts -/

/-- `escapeHtml` distributes over cons. -/
theorem escapeHtml_cons (a : Char) (s : List Char) :
    escapeHtml (a :: s) = escapeChar a ++ escapeHtml s := by
  simp [escapeHtml]

/-- A single escaped character contains no angle bracket. -/
theorem escapeChar_no_angle (a : Char) : ∀ c ∈ escapeChar a, c ≠ '<' ∧ c ≠ '>' := by
  intro c hc
  unfold escapeChar at hc
  split_ifs at hc with h1 h2 h3 <;>
    simp only [List.mem_cons, List.not_mem_nil, or_false] at hc
  · rcases hc with h | h | h | h | h <;> subst h <;> exact ⟨by decide, by decide⟩
  · rcases hc with h | h | h | h <;> subst h <;> exact ⟨by decide, by decide⟩
  · rcases hc with h | h | h | h <;> subst h <;> exact ⟨by decide, by decide⟩
  · subst hc; exact ⟨h2, h3⟩

/-- Escaped text contains no angle bracket: nothing in it can open markup. -/
theorem escapeHtml_no_angle (s : List Char) : ∀ c ∈ escapeHtml s, c ≠ '<' ∧ c ≠ '>' := by
  induction s with
  | nil => intro c hc; simp [escapeHtml] at hc
  | cons a s ih =>
    intro c hc
    rw [escapeHtml_cons] at hc
    rcases List.mem_append.mp hc with h | h
    · exact escapeChar_no_angle a c h
    · exact ih c h

/-- The HTML-to-text parse does not depend on the fuel once it exceeds the
input length. -/
theorem htmlToTextGo_fuel (f : Nat) : ∀ (g : Nat) (s : List Char),
    s.length < f → s.length < g → htmlToTextGo f s = htmlToTextGo g s := by
  induction f with
  | zero => intro g s h _; omega
  | succ f ih =>
    intro g s hf hg
    match g, s with
    | 0, s => omega
    | g + 1, [] => rfl
    | g + 1, c :: rest =>
      have hr : rest.length < f := by
        simp only [List.length_cons] at hf
        omega
      have hrg : rest.length < g := by
        simp only [List.length_cons] at hg
        omega
      have hdw : (List.dropWhile (fun x => !(x = '>')) rest).length ≤ rest.length :=
        (List.dropWhile_sublist _).length_le
      simp only [htmlToTextGo]
      split_ifs <;>
        first
          | rfl
          | exact ih g _ (by simp only [List.length_drop]; omega)
              (by simp only [List.length_drop]; omega)
          | exact congrArg (List.cons _) (ih g _ (by simp only [List.length_drop]; omega)
              (by simp only [List.length_drop]; omega))
          | exact congrArg (List.cons _) (ih g _ hr hrg)

/-- One parser step on an `&amp;` entity. -/
theorem htmlToTextGo_amp (Y : List Char) (f : Nat) :
    htmlToTextGo (f + 1) ('&' :: 'a' :: 'm' :: 'p' :: ';' :: Y) = '&' :: htmlToTextGo f Y := by
  simp [htmlToTextGo]

/-- One parser step on an `&lt;` entity. -/
theorem htmlToTextGo_lt (Y : List Char) (f : Nat) :
    htmlToTextGo (f + 1) ('&' :: 'l' :: 't' :: ';' :: Y) = '<' :: htmlToTextGo f Y := by
  simp [htmlToTextGo]

/-- One parser step on an `&gt;` entity. -/
theorem htmlToTextGo_gt (Y : List Char) (f : Nat) :
    htmlToTextGo (f + 1) ('&' :: 'g' :: 't' :: ';' :: Y) = '>' :: htmlToTextGo f Y := by
  simp [htmlToTextGo]

/-- One parser step on a plain character. -/
theorem htmlToTextGo_plain (c : Char) (Y : List Char) (f : Nat)
    (h1 : c ≠ '<') (h2 : c ≠ '&') :
    htmlToTextGo (f + 1) (c :: Y) = c :: htmlToTextGo f Y := by
  simp [htmlToTextGo, h1, h2]

/-- Parsing one escaped character recovers it. -/
theorem htmlToText_escapeChar (c : Char) (Y : List Char) :
    htmlToText (escapeChar c ++ Y) = c :: htmlToText Y := by
  by_cases h1 : c = '&'
  · subst h1
    show htmlToTextGo _ _ = _
    rw [show escapeChar '&' ++ Y = '&' :: 'a' :: 'm' :: 'p' :: ';' :: Y from rfl]
    simp only [List.length_cons]
    rw [htmlToTextGo_amp]
    exact congrArg (List.cons '&') (htmlToTextGo_fuel _ _ Y (by omega) (by omega))
  · by_cases h2 : c = '<'
    · subst h2
      show htmlToTextGo _ _ = _
      rw [show escapeChar '<' ++ Y = '&' :: 'l' :: 't' :: ';' :: Y from rfl]
      simp only [List.length_cons]
      rw [htmlToTextGo_lt]
      exact congrArg (List.cons '<') (htmlToTextGo_fuel _ _ Y (by omega) (by omega))
    · by_cases h3 : c = '>'
      · subst h3
        show htmlToTextGo _ _ = _
        rw [show escapeChar '>' ++ Y = '&' :: 'g' :: 't' :: ';' :: Y from rfl]
        simp only [List.length_cons]
        rw [htmlToTextGo_gt]
        exact congrArg (List.cons '>') (htmlToTextGo_fuel _ _ Y (by omega) (by omega))
      · show htmlToTextGo _ _ = _
        rw [show escapeChar c ++ Y = c :: Y from by simp [escapeChar, h1, h2, h3]]
        simp only [List.length_cons]
        rw [htmlToTextGo_plain c Y _ h2 h1]
        rfl

/-- Round trip: parsing escaped text recovers the original text. -/
theorem htmlToText_escape (s : List Char) : htmlToText (escapeHtml s) = s := by
  have key : ∀ (u t : List Char), htmlToText (escapeHtml u ++ t) = u ++ htmlToText t := by
    intro u
    induction u with
    | nil => intro t; simp [escapeHtml]
    | cons a u ih =>
      intro t
      rw [escapeHtml_cons, List.append_assoc, htmlToText_escapeChar, ih]
      rfl
  have := key s []
  rw [show htmlToText ([] : List Char) = [] from rfl] at this
  simpa using this

/-- The inner per-line fold conses exactly the reversed matched pairs. -/
theorem foldl_lines_eq (lines : List (List Char)) :
    ∀ (t : ExplTable),
      lines.foldl (fun table line =>
        match matchExplanation line with
        | some (n, cap) => (n, jsTrim cap) :: table
        | none => table) t
      = (lines.filterMap (fun line =>
          (matchExplanation line).map (fun p => (p.1, jsTrim p.2)))).reverse ++ t := by
  induction lines with
  | nil => intro t; simp
  | cons line lines ih =>
    intro t
    cases h : matchExplanation line with
    | none => simp [List.foldl_cons, h, ih]
    | some p => simp [List.foldl_cons, h, ih]

/-- The collector's table is the reversed document-order pair list. -/
theorem extractExplanations_eq (textNodes : List (List Char)) :
    extractExplanations textNodes = (explPairs textNodes).reverse := by
  have key : ∀ (nodes : List (List Char)) (t : ExplTable),
      nodes.foldl (fun table node =>
        ((jsTrim node).splitOn '\n').foldl (fun table line =>
          match matchExplanation line with
          | some (n, cap) => (n, jsTrim cap) :: table
          | none => table) table) t
      = (explPairs nodes).reverse ++ t := by
    intro nodes
    induction nodes with
    | nil => intro t; simp [explPairs]
    | cons node nodes ih =>
      intro t
      simp only [List.foldl_cons]
      rw [foldl_lines_eq, ih]
      simp [explPairs, List.reverse_append]
  have := key textNodes []
  simpa [extractExplanations] using this

/-! ## Skipped blocks are preserved in place -/

/-- Blocks skipped by the guards of `processContainer` survive at their
position unchanged. -/
theorem processBlocks_skip (expl : ExplTable) :
    ∀ (bs : List Block) (used : List Nat) (i : Nat) (b : Block),
      bs[i]? = some b → (b.text.length < 10 ∨ b.inTable = true) →
      (processBlocks expl bs used).1[i]? = some b := by
  intro bs
  induction bs with
  | nil => intro used i b h _; simp at h
  | cons b0 bs ih =>
    intro used i b h hcond
    by_cases hc : b0.text.length < 10 ∨ b0.inTable = true
    · simp only [processBlocks, if_pos hc]
      cases i with
      | zero => simpa using h
      | succ i =>
        simp only [List.getElem?_cons_succ] at h ⊢
        exact ih used i b h hcond
    · simp only [processBlocks, if_neg hc]
      cases i with
      | zero =>
        simp only [List.getElem?_cons_zero, Option.some.injEq] at h
        subst h
        exact absurd hcond hc
      | succ i =>
        simp only [List.getElem?_cons_succ] at h ⊢
        exact ih _ i b h hcond

/-! ## Remaining helper lemmas -/

/-- Every annotation element of a match in the list occurs contiguously in
the weave. -/
theorem weave_mem_infix (s : List Char) (expl : ExplTable) :
    ∀ (ms : List CMatch) (pos : Nat) (m : CMatch), m ∈ ms →
      ∃ pre post,
        weave ((gapsFrom s pos ms).map escapeHtml) (ms.map (annotOf expl))
          = pre ++ annotOf expl m ++ post := by
  intro ms
  induction ms with
  | nil => intro pos m hm; simp at hm
  | cons m0 ms ih =>
    intro pos m hm
    simp only [gapsFrom, List.map_cons, weave]
    rcases List.mem_cons.mp hm with h | h
    · subst h
      exact ⟨escapeHtml (jsSlice s pos m.index),
        weave ((gapsFrom s (m.index + m.txt.length) ms).map escapeHtml)
          (ms.map (annotOf expl)), by simp [List.append_assoc]⟩
    · obtain ⟨pre, post, hw⟩ := ih (m0.index + m0.txt.length) m h
      exact ⟨escapeHtml (jsSlice s pos m0.index) ++ annotOf expl m0 ++ pre, post,
        by rw [hw]; simp [List.append_assoc]⟩

/-- A block in which the pattern finds no match is left untouched. -/
theorem processCodeBlock_of_no_matches (b : Block) (expl : ExplTable)
    (h : scanMatches b.text = []) : processCodeBlock b expl = b := by
  simp [processCodeBlock, h]

/-- One flag-guarded block step is idempotent. -/
theorem processJsBlock_idem (b : JsCodeBlock) :
    processJsBlock (processJsBlock b) = processJsBlock b := by
  by_cases hp : b.processed
  · simp [processJsBlock, hp]
  · by_cases hh : (processJsContent b.content).2
    · simp [processJsBlock, hp, hh]
    · simp [processJsBlock, hp, hh]

/-- Claim C1: for a code block text in which no marker's parsed number has
an entry in the explanation table, the rewriter creates no annotation
element (its output has no `<` at all) and the block's text is left byte
for byte identical: the produced HTML is just the escaped original text,
and its text content parses back to the original. -/
theorem c1_unmatched_markers_no_rewrite (codeText : List Char) (expl : ExplTable)
    (h : ∀ m ∈ scanMatches codeText, explGet expl m.num = none) :
    processCodeBlockHtml codeText expl = escapeHtml codeText
      ∧ htmlToText (processCodeBlockHtml codeText expl) = codeText
      ∧ ∀ ch ∈ processCodeBlockHtml codeText expl, ch ≠ '<' := by
  have hnil : consumedMatches expl (scanMatches codeText) = [] := by
    rw [consumedMatches, List.filter_eq_nil_iff]
    intro m hm
    simp [consumedP, h m hm]
  have h1 : processCodeBlockHtml codeText expl = escapeHtml codeText := by
    rw [processCodeBlockHtml, renderMatches_filter, hnil]
    simp [renderMatches, jsSlice]
  refine ⟨h1, ?_, ?_⟩
  · rw [h1]
    exact htmlToText_escape codeText
  · rw [h1]
    intro ch hch
    exact (escapeHtml_no_angle codeText ch hch).1

/-- Witness for C1 at the spec's own example `# (3)! foo` with an empty
table. -/
theorem c1_unmatched_markers_no_rewrite_witness :
    processCodeBlockHtml ("# (3)! foo".toList) [] = escapeHtml ("# (3)! foo".toList)
      ∧ htmlToText (processCodeBlockHtml ("# (3)! foo".toList) []) = "# (3)! foo".toList
      ∧ ∀ ch ∈ processCodeBlockHtml ("# (3)! foo".toList) [], ch ≠ '<' :=
  c1_unmatched_markers_no_rewrite ("# (3)! foo".toList) [] (fun _ _ => rfl)

/-- Claim C2: a rewritten marker's explanation is carried inside the
tooltip node in HTML-escaped form; the escaped text contains no angle
bracket, so it cannot be emitted as raw markup. -/
theorem c2_tooltip_escaped (codeText : List Char) (expl : ExplTable) (m : CMatch)
    (e : List Char) (hm : m ∈ scanMatches codeText)
    (hget : explGet expl m.num = some e) (hne : e ≠ []) :
    (∃ pre post, processCodeBlockHtml codeText expl
        = pre ++ (tooltipOpen ++ escapeHtml e ++ tooltipClose) ++ post)
      ∧ ∀ ch ∈ escapeHtml e, ch ≠ '<' ∧ ch ≠ '>' := by
  refine ⟨?_, escapeHtml_no_angle e⟩
  have hmem : m ∈ consumedMatches expl (scanMatches codeText) := by
    rw [consumedMatches, List.mem_filter]
    refine ⟨hm, ?_⟩
    simp only [consumedP, hget, Bool.not_eq_true']
    cases e with
    | nil => exact absurd rfl hne
    | cons a t => rfl
  obtain ⟨pre, post, hw⟩ := weave_mem_infix codeText expl _ 0 m hmem
  refine ⟨pre ++ annotOpen m.num, annotClose ++ post, ?_⟩
  rw [processHtml_eq_weave, hw]
  simp [annotOf, hget, annotHtml, List.append_assoc]

/-- Witness for C2: marker `# (1)!` with explanation `a<b&c>d`. -/
theorem c2_tooltip_escaped_witness :
    (∃ pre post, processCodeBlockHtml ("x = 1  # (1)! y".toList) [(1, "a<b&c>d".toList)]
        = pre ++ (tooltipOpen ++ escapeHtml ("a<b&c>d".toList) ++ tooltipClose) ++ post)
      ∧ ∀ ch ∈ escapeHtml ("a<b&c>d".toList), ch ≠ '<' ∧ ch ≠ '>' :=
  c2_tooltip_escaped ("x = 1  # (1)! y".toList) [(1, "a<b&c>d".toList)]
    ⟨7, "# (1)! ".toList, 1⟩ ("a<b&c>d".toList) (by decide) (by decide) (by decide)

/-- Claim C3 (code bug): in the spec's end-to-end scenario the code block
is rewritten, yet the explanation list is NOT hidden, because the used
numbers are collected from the block's text content *after* the rewrite
already removed the markers, so the used-number set comes out empty. -/
theorem c3_list_not_hidden :
    ((processContainer e2eContainer).lists.map ExplList.hidden = [false])
    ∧ (processContainer e2eContainer).blocks ≠ e2eContainer.blocks
    ∧ (processBlocks (extractExplanations e2eContainer.textNodes)
        e2eContainer.blocks []).2 = [] := by
  decide

/-- Claim C4, counterexample to the original statement: in the
self-injecting variant a block whose explanation itself contains a marker
is rewritten again by a second pass. -/
theorem c4_counterexample :
    processCodeBlock (processCodeBlock loopBlock loopExpl) loopExpl
      ≠ processCodeBlock loopBlock loopExpl := by
  decide

/-- Claim C4 (amended): the flag variant (`processCodeAnnotations`) is
idempotent unconditionally; in the self-injecting variant a block receives
no additional rewrite provided no marker remains in its rewritten text. -/
theorem c4_idempotent :
    (∀ bs : List JsCodeBlock,
        processCodeAnnotations (processCodeAnnotations bs) = processCodeAnnotations bs)
    ∧ ∀ (b : Block) (expl : ExplTable),
        scanMatches (processCodeBlock b expl).text = [] →
        processCodeBlock (processCodeBlock b expl) expl = processCodeBlock b expl := by
  constructor
  · intro bs
    induction bs with
    | nil => rfl
    | cons b bs ih =>
      simp only [processCodeAnnotations, List.map_cons] at ih ⊢
      rw [processJsBlock_idem, ih]
  · intro b expl h
    exact processCodeBlock_of_no_matches _ _ h

/-- Witness for C4: a freshly-annotated flag-variant block, and a benign
self-injecting block whose rewritten text has no remaining marker. -/
theorem c4_idempotent_witness :
    processCodeAnnotations (processCodeAnnotations [⟨"a = 1  # (1)! hi".toList, false⟩])
      = processCodeAnnotations [⟨"a = 1  # (1)! hi".toList, false⟩]
    ∧ processCodeBlock (processCodeBlock benignBlock benignExpl) benignExpl
        = processCodeBlock benignBlock benignExpl :=
  ⟨c4_idempotent.1 [⟨"a = 1  # (1)! hi".toList, false⟩],
   c4_idempotent.2 benignBlock benignExpl (by decide)⟩

/-- Claim C5: the rewriter's output is the left-to-right weave of the
HTML-escaped gaps with the annotation elements of the consumed matches,
and those gaps interleaved with the consumed matched spans tile the input
text exactly — text outside matched spans is preserved byte for byte
(modulo escaping), in order, with no loss. -/
theorem c5_gap_preservation (codeText : List Char) (expl : ExplTable) :
    processCodeBlockHtml codeText expl
      = weave ((gapsFrom codeText 0 (consumedMatches expl (scanMatches codeText))).map
                escapeHtml)
              ((consumedMatches expl (scanMatches codeText)).map (annotOf expl))
    ∧ weave (gapsFrom codeText 0 (consumedMatches expl (scanMatches codeText)))
            ((consumedMatches expl (scanMatches codeText)).map CMatch.txt)
      = codeText :=
  ⟨processHtml_eq_weave codeText expl, weave_reassemble codeText expl⟩

/-- Claim C6: in a block containing markers in all four comment syntaxes,
each with its inline explanation, all four are rewritten into annotation
elements and no marker text survives (no cross-syntax interference). -/
theorem c6_four_syntaxes :
    (processJsContent c6Input).2 = true
    ∧ listHasSeq (jsAnnotSpan ("1".toList) ("alpha".toList)) (processJsContent c6Input).1 = true
    ∧ listHasSeq (jsAnnotSpan ("2".toList) ("beta".toList)) (processJsContent c6Input).1 = true
    ∧ listHasSeq (jsAnnotSpan ("3".toList) ("gamma".toList)) (processJsContent c6Input).1 = true
    ∧ listHasSeq (jsAnnotSpan ("4".toList) ("delta".toList)) (processJsContent c6Input).1 = true
    ∧ listHasSeq ("(1)!".toList) (processJsContent c6Input).1 = false
    ∧ listHasSeq ("(2)!".toList) (processJsContent c6Input).1 = false
    ∧ listHasSeq ("(3)!".toList) (processJsContent c6Input).1 = false
    ∧ listHasSeq ("(4)!".toList) (processJsContent c6Input).1 = false := by
  decide

/-- Claim C7: the collector's table lookup returns the trimmed capture of
the LAST explanation line for that number in document order
(last-write-wins over all text nodes and lines). -/
theorem c7_last_write_wins (textNodes : List (List Char)) (n : Nat) :
    explGet (extractExplanations textNodes) n
      = ((explPairs textNodes).reverse.find? (fun p => p.1 == n)).map Prod.snd := by
  rw [extractExplanations_eq]
  rfl

/-- Claim C8: a container whose collector scan yields an empty table is
skipped entirely: no block is rewritten and no list is hidden. -/
theorem c8_empty_table_skips (c : Container)
    (h : extractExplanations c.textNodes = []) : processContainer c = c := by
  simp [processContainer, h]

/-- Witness for C8: prose-only text nodes, a marker-carrying block and a
list, all left unchanged. -/
theorem c8_empty_table_skips_witness : processContainer plainContainer = plainContainer :=
  c8_empty_table_skips plainContainer (by decide)

/-- Claim C9: a code block whose text is shorter than 10 characters, or
that sits inside a table, is never handed to the rewriter: it survives the
container scan at its position unchanged, even if it contains markers
with table entries. -/
theorem c9_small_or_table_blocks_untouched (c : Container) (i : Nat) (b : Block)
    (hb : c.blocks[i]? = some b) (hskip : b.text.length < 10 ∨ b.inTable = true) :
    (processContainer c).blocks[i]? = some b := by
  unfold processContainer
  split
  · exact hb
  · exact processBlocks_skip _ c.blocks [] i b hb hskip

/-- Witness for C9: a short block with a marker whose number has a table
entry, and a long block inside a table, both untouched. -/
theorem c9_small_or_table_blocks_untouched_witness :
    (processContainer shortBlockContainer).blocks[0]? = some ⟨"# (1)!".toList, false, []⟩
    ∧ (processContainer shortBlockContainer).blocks[1]?
        = some ⟨"y = f(11)  # (1)! call".toList, true, []⟩ :=
  ⟨c9_small_or_table_blocks_untouched shortBlockContainer 0 ⟨"# (1)!".toList, false, []⟩
      (by decide) (by decide),
   c9_small_or_table_blocks_untouched shortBlockContainer 1
      ⟨"y = f(11)  # (1)! call".toList, true, []⟩ (by decide) (by decide)⟩

/-- Claim C10: numbers are paired by numeric value, not digit string: the
collector keys `07. seven` under 7, and a marker written `# (07)!` is
rewritten using any table entry for 7 (displaying the normalized number). -/
theorem c10_parseint_normalizes :
    extractExplanations ["07. seven".toList] = [(7, "seven".toList)]
    ∧ ∀ (expl : ExplTable) (e : List Char), explGet expl 7 = some e → e ≠ [] →
        processCodeBlockHtml ("# (07)! x".toList) expl
          = annotHtml 7 e ++ escapeHtml ("x".toList) := by
  constructor
  · decide
  · intro expl e hget hne
    have he : e.isEmpty = false := by
      cases e with
      | nil => exact absurd rfl hne
      | cons a t => rfl
    have hscan : scanMatches ("# (07)! x".toList) = [⟨0, "# (07)! ".toList, 7⟩] := by
      decide
    rw [processCodeBlockHtml, hscan]
    simp only [renderMatches, hget, he, Bool.false_eq_true, if_false]
    rfl

/-- Witness for C10: the `07` marker rewritten with the entry for 7. -/
theorem c10_parseint_normalizes_witness :
    processCodeBlockHtml ("# (07)! x".toList) [(7, "seven".toList)]
      = annotHtml 7 ("seven".toList) ++ escapeHtml ("x".toList) :=
  c10_parseint_normalizes.2 [(7, "seven".toList)] ("seven".toList) rfl (by decide)
